import Mathlib

/-!
Verification of the PR-tracker extension's status-classification and
CI-progress-bar allocation logic (from `extensions/pr-tracker.ts`).

The TypeScript source is embedded shallowly: string-typed enumerations
become inductive types, optional fields become `Option`, JavaScript
truthiness of strings (`s || ""`) becomes an explicit emptiness test, and
the real-number proportional shares `count / total * width` are modelled
exactly: the floor is `count * width / total` (natural division) and the
fractional remainders are compared by their numerators
`count * width % total` over the common denominator `total`.  The two
`while` loops of the renderer are modelled with an explicit iteration
budget equal to the number of steps the loop can possibly take (each
iteration moves the slot sum by one towards `width`), so every definition
is executable.
-/

/-- `type CiStatus = "pass" | "fail" | "pending" | "none" | "unknown"`. -/
inductive CiStatus where
  | pass
  | fail
  | pending
  | none
  | unknown
deriving DecidableEq, Repr

/-- `type ReviewStatus = "approved" | "changes" | "pending" | "unknown"`. -/
inductive ReviewStatus where
  | approved
  | changes
  | pending
  | unknown
deriving DecidableEq, Repr

/-- `type MergeStatus = "merged" | "open" | "closed" | "draft" | "unknown"`. -/
inductive MergeStatus where
  | merged
  | open
  | closed
  | draft
  | unknown
deriving DecidableEq, Repr

/-- `type CiProgress = { total; passed; failed; pending; status }`. -/
structure CiProgress where
  total : Nat
  passed : Nat
  failed : Nat
  pending : Nat
  status : CiStatus
deriving DecidableEq, Repr

/-- One element of `statusCheckRollup`: `{ status?: string; conclusion?: string | null }`. -/
structure CheckResult where
  status : Option String
  conclusion : Option String
deriving DecidableEq, Repr

/-- The fields of `PrRecord` read by `ciProgressFromRecord`
(`ci: CiStatus; ciProgress?: CiProgress`); the remaining fields of the
record (number, url, title, ...) are not consulted by the functions
modelled here. -/
structure PrRecord where
  ci : CiStatus
  ciProgress : Option CiProgress
deriving DecidableEq, Repr

/-- The fields of `GhPrView` read by `mergeFromState`
(`mergedAt?: string | null; isDraft?: boolean; state?: string`). -/
structure GhPrView where
  mergedAt : Option String
  isDraft : Option Bool
  state : Option String
deriving DecidableEq, Repr

/-- JavaScript truthiness of an optional string: `undefined`, `null` and
`""` are falsy, every other string is truthy. -/
def truthyStr : Option String → Bool
  | Option.none => false
  | Option.some s => !(s == "")

/-- `String.prototype.toUpperCase()`: uppercase every character.  This is
the same function as `String.toUpper` (both map `Char.toUpper` over the
characters) but is written directly over the character list so that it
reduces inside the kernel. -/
def strUpper (s : String) : String :=
  ⟨s.data.map Char.toUpper⟩

/-- `const status = (check.status || "").toUpperCase()`. -/
def checkStatusUp (c : CheckResult) : String :=
  strUpper (c.status.getD "")

/-- `const conclusion = (check.conclusion || "").toUpperCase()`. -/
def checkConclusionUp (c : CheckResult) : String :=
  strUpper (c.conclusion.getD "")

/-- `const isCompleted = status === "COMPLETED" || (!status && Boolean(conclusion))`. -/
def isCompletedCheck (c : CheckResult) : Bool :=
  checkStatusUp c == "COMPLETED" || (checkStatusUp c == "" && !(checkConclusionUp c == ""))

/-- The failure conclusions of `ciProgressFromChecks`. -/
def failConclusions : List String :=
  ["FAILURE", "TIMED_OUT", "CANCELLED", "ACTION_REQUIRED", "STARTUP_FAILURE", "ERROR"]

/-- The success conclusions of `ciProgressFromChecks`. -/
def passConclusions : List String :=
  ["SUCCESS", "NEUTRAL", "SKIPPED"]

/-- The body of the `for (const check of checks)` loop of
`ciProgressFromChecks`, acting on the accumulator
`(passed, failed, pending)`.  The loop's early `continue` for a
not-completed check is the `else` branch here; within the completed case
the source checks the failure list, then the empty conclusion, then the
success list, and otherwise counts the check as failed. -/
def classifyStep (acc : Nat × Nat × Nat) (check : CheckResult) : Nat × Nat × Nat :=
  if isCompletedCheck check then
    if checkConclusionUp check ∈ failConclusions then (acc.1, acc.2.1 + 1, acc.2.2)
    else if checkConclusionUp check = "" then (acc.1, acc.2.1, acc.2.2 + 1)
    else if checkConclusionUp check ∈ passConclusions then (acc.1 + 1, acc.2.1, acc.2.2)
    else (acc.1, acc.2.1 + 1, acc.2.2)
  else (acc.1, acc.2.1, acc.2.2 + 1)

/-- `ciProgressFromChecks(checks?: ...): CiProgress`.  `!checks ||
checks.length === 0` returns the empty tally with status `"none"`;
otherwise the loop counts each check into one bucket and the status is
`failed > 0 ? "fail" : pending > 0 ? "pending" : "pass"`. -/
def ciProgressFromChecks (checks : Option (List CheckResult)) : CiProgress :=
  match checks with
  | Option.none => ⟨0, 0, 0, 0, CiStatus.none⟩
  | Option.some cs =>
    if cs.isEmpty then ⟨0, 0, 0, 0, CiStatus.none⟩
    else
      let r := cs.foldl classifyStep (0, 0, 0)
      { total := r.1 + r.2.1 + r.2.2
        passed := r.1
        failed := r.2.1
        pending := r.2.2
        status :=
          if 0 < r.2.1 then CiStatus.fail
          else if 0 < r.2.2 then CiStatus.pending
          else CiStatus.pass }

/-- `ciProgressFromRecord(pr)`: returns the stored `pr.ciProgress` when
present, otherwise rebuilds a one-check tally from the coarse `pr.ci`
status; the `default` branch of the `switch` yields the zero tally with
status `"unknown"`. -/
def ciProgressFromRecord (pr : PrRecord) : CiProgress :=
  match pr.ciProgress with
  | Option.some p => p
  | Option.none =>
    match pr.ci with
    | CiStatus.pass => ⟨1, 1, 0, 0, CiStatus.pass⟩
    | CiStatus.fail => ⟨1, 0, 1, 0, CiStatus.fail⟩
    | CiStatus.pending => ⟨1, 0, 0, 1, CiStatus.pending⟩
    | CiStatus.none => ⟨0, 0, 0, 0, CiStatus.none⟩
    | CiStatus.unknown => ⟨0, 0, 0, 0, CiStatus.unknown⟩

/-- `reviewFromDecision(decision?, merge?)`. -/
def reviewFromDecision (decision : Option String) (merge : Option MergeStatus) : ReviewStatus :=
  if merge = Option.some MergeStatus.merged then ReviewStatus.approved
  else
    let value := strUpper (decision.getD "")
    if value = "APPROVED" then ReviewStatus.approved
    else if value = "CHANGES_REQUESTED" then ReviewStatus.changes
    else if value = "REVIEW_REQUIRED" then ReviewStatus.pending
    else ReviewStatus.unknown

/-- `mergeFromState(pr)`. -/
def mergeFromState (pr : GhPrView) : MergeStatus :=
  if truthyStr pr.mergedAt = true ∨ strUpper (pr.state.getD "") = "MERGED" then
    MergeStatus.merged
  else if pr.isDraft.getD false = true then MergeStatus.draft
  else
    let state := strUpper (pr.state.getD "")
    if state = "OPEN" then MergeStatus.open
    else if state = "CLOSED" then MergeStatus.closed
    else MergeStatus.unknown

/-- The result of the bar allocation inside `ciBadge`: the mutable local
slot counters `passSlots`, `failSlots`, `pendingSlots` (the spec's
`BarAllocation`). -/
structure BarAllocation where
  passSlots : Nat
  failSlots : Nat
  pendingSlots : Nat
deriving DecidableEq, Repr

/-- Total number of slots of an allocation. -/
def sumAlloc (s : BarAllocation) : Nat :=
  s.passSlots + s.failSlots + s.pendingSlots

/-- The category keys `"pass" | "fail" | "pending"` of the `fractions`
array inside `ciBadge`. -/
inductive Cat where
  | pass
  | fail
  | pending
deriving DecidableEq, Repr

/-- `if (item.key === "pass") passSlots += 1; ...` — add one slot to the
given category. -/
def bump (k : Cat) (s : BarAllocation) : BarAllocation :=
  match k with
  | Cat.pass => { s with passSlots := s.passSlots + 1 }
  | Cat.fail => { s with failSlots := s.failSlots + 1 }
  | Cat.pending => { s with pendingSlots := s.pendingSlots + 1 }

/-- Stable descending insertion for the `fractions` sort.  An element is
placed before the first existing element whose fraction it is `≥`, so
elements with equal fractions keep their construction order — the
behaviour guaranteed for `Array.prototype.sort` (stable) with the
comparator `(a, b) => b.frac - a.frac`.  Fractions are represented by
their numerators over the common denominator `total`. -/
def insertDesc (x : Cat × Nat) : List (Cat × Nat) → List (Cat × Nat)
  | [] => [x]
  | y :: ys => if y.2 ≤ x.2 then x :: y :: ys else y :: insertDesc x ys

/-- The sorted `fractions` array: `[pass, fail, pending]` (construction
order of the array literal) stably sorted by fraction descending. -/
def sortFractions (rp rf rpd : Nat) : List (Cat × Nat) :=
  insertDesc (Cat.pass, rp) (insertDesc (Cat.fail, rf) (insertDesc (Cat.pending, rpd) []))

/-- The remainder-distribution loop:
`for (const item of fractions) { if (used >= width) break; ...+= 1; used += 1 }`. -/
def distribute (width : Nat) : List (Cat × Nat) → BarAllocation → Nat → BarAllocation
  | [], s, _ => s
  | item :: rest, s, used =>
    if width ≤ used then s
    else distribute width rest (bump item.1 s) (used + 1)

/-- `borrowSlot("fail")`: when `progress.failed > 0` and `failSlots === 0`,
take one slot from pending if it has more than one, else from pass if it
has more than one, else from pending if it has any, else from pass if it
has any, and give `failSlots` one slot unconditionally. -/
def borrowFail (failed : Nat) (s : BarAllocation) : BarAllocation :=
  if 0 < failed ∧ s.failSlots = 0 then
    if 1 < s.pendingSlots then
      { s with pendingSlots := s.pendingSlots - 1, failSlots := s.failSlots + 1 }
    else if 1 < s.passSlots then
      { s with passSlots := s.passSlots - 1, failSlots := s.failSlots + 1 }
    else if 0 < s.pendingSlots then
      { s with pendingSlots := s.pendingSlots - 1, failSlots := s.failSlots + 1 }
    else if 0 < s.passSlots then
      { s with passSlots := s.passSlots - 1, failSlots := s.failSlots + 1 }
    else { s with failSlots := s.failSlots + 1 }
  else s

/-- `borrowSlot("pending")`: donors tried in the order pass>1, fail>1,
pass>0, fail>0. -/
def borrowPending (pending : Nat) (s : BarAllocation) : BarAllocation :=
  if 0 < pending ∧ s.pendingSlots = 0 then
    if 1 < s.passSlots then
      { s with passSlots := s.passSlots - 1, pendingSlots := s.pendingSlots + 1 }
    else if 1 < s.failSlots then
      { s with failSlots := s.failSlots - 1, pendingSlots := s.pendingSlots + 1 }
    else if 0 < s.passSlots then
      { s with passSlots := s.passSlots - 1, pendingSlots := s.pendingSlots + 1 }
    else if 0 < s.failSlots then
      { s with failSlots := s.failSlots - 1, pendingSlots := s.pendingSlots + 1 }
    else { s with pendingSlots := s.pendingSlots + 1 }
  else s

/-- `borrowSlot("pass")`: donors tried in the order pending>1, fail>1,
pending>0, fail>0. -/
def borrowPass (passed : Nat) (s : BarAllocation) : BarAllocation :=
  if 0 < passed ∧ s.passSlots = 0 then
    if 1 < s.pendingSlots then
      { s with pendingSlots := s.pendingSlots - 1, passSlots := s.passSlots + 1 }
    else if 1 < s.failSlots then
      { s with failSlots := s.failSlots - 1, passSlots := s.passSlots + 1 }
    else if 0 < s.pendingSlots then
      { s with pendingSlots := s.pendingSlots - 1, passSlots := s.passSlots + 1 }
    else if 0 < s.failSlots then
      { s with failSlots := s.failSlots - 1, passSlots := s.passSlots + 1 }
    else { s with passSlots := s.passSlots + 1 }
  else s

/-- One pass of the overflow loop
`while (passSlots + failSlots + pendingSlots > width) { ... else break }`,
given an iteration budget.  Each productive iteration lowers the slot sum
by exactly one, so a budget of `sumAlloc s` iterations is enough for the
loop to reach its exit condition; `shrinkToWidth` supplies that budget. -/
def shrinkGo (width : Nat) : Nat → BarAllocation → BarAllocation
  | 0, s => s
  | fuel + 1, s =>
    if width < sumAlloc s then
      if 1 < s.pendingSlots then shrinkGo width fuel { s with pendingSlots := s.pendingSlots - 1 }
      else if 1 < s.passSlots then shrinkGo width fuel { s with passSlots := s.passSlots - 1 }
      else if 1 < s.failSlots then shrinkGo width fuel { s with failSlots := s.failSlots - 1 }
      else s
    else s

/-- The overflow-correction loop of `ciBadge`. -/
def shrinkToWidth (width : Nat) (s : BarAllocation) : BarAllocation :=
  shrinkGo width (sumAlloc s) s

/-- One pass of the underflow loop
`while (passSlots + failSlots + pendingSlots < width) { ... }`, given an
iteration budget.  Each iteration raises the slot sum by exactly one, so
a budget of `width - sumAlloc s` iterations reaches the exit condition;
`growToWidth` supplies that budget. -/
def growGo (width : Nat) (p : CiProgress) : Nat → BarAllocation → BarAllocation
  | 0, s => s
  | fuel + 1, s =>
    if sumAlloc s < width then
      if 0 < p.pending then growGo width p fuel { s with pendingSlots := s.pendingSlots + 1 }
      else if 0 < p.passed then growGo width p fuel { s with passSlots := s.passSlots + 1 }
      else growGo width p fuel { s with failSlots := s.failSlots + 1 }
    else s

/-- The underflow-correction loop of `ciBadge`. -/
def growToWidth (width : Nat) (p : CiProgress) (s : BarAllocation) : BarAllocation :=
  growGo width p (width - sumAlloc s) s

/-- The floor baseline:
`Math.floor((progress.passed / progress.total) * width)` etc., with the
real-number arithmetic carried out exactly. -/
def allocBase (p : CiProgress) (width : Nat) : BarAllocation :=
  ⟨p.passed * width / p.total, p.failed * width / p.total, p.pending * width / p.total⟩

/-- The sorted `fractions` array of `ciBadge`: the fractional part of
`count / total * width` is `(count * width % total) / total`, represented
by its numerator. -/
def allocFractions (p : CiProgress) (width : Nat) : List (Cat × Nat) :=
  sortFractions (p.passed * width % p.total) (p.failed * width % p.total)
    (p.pending * width % p.total)

/-- The slot allocation computed by `ciBadge` for a given width (the
source instantiates `width = 7`): early return of the all-zero allocation
when `progress.total === 0`, then floors, largest-remainder distribution
(`used` starts at the sum of the floors), the three `borrowSlot` calls in
the order fail, pending, pass, the overflow loop and the underflow
loop. -/
def ciBadgeAllocate (p : CiProgress) (width : Nat) : BarAllocation :=
  if p.total = 0 then ⟨0, 0, 0⟩
  else
    growToWidth width p
      (shrinkToWidth width
        (borrowPass p.passed
          (borrowPending p.pending
            (borrowFail p.failed
              (distribute width (allocFractions p width) (allocBase p width)
                (sumAlloc (allocBase p width)))))))

/-! ## Helper lemmas about the allocation pipeline -/

theorem sumAlloc_bump (k : Cat) (s : BarAllocation) :
    sumAlloc (bump k s) = sumAlloc s + 1 := by
  cases k <;> simp [bump, sumAlloc] <;> omega

theorem length_insertDesc (x : Cat × Nat) (l : List (Cat × Nat)) :
    (insertDesc x l).length = l.length + 1 := by
  induction l with
  | nil => rfl
  | cons y ys ih => simp only [insertDesc]; split <;> simp [ih]

theorem length_sortFractions (rp rf rpd : Nat) :
    (sortFractions rp rf rpd).length = 3 := by
  simp [sortFractions, length_insertDesc]

theorem sumAlloc_distribute (w : Nat) (l : List (Cat × Nat)) (s : BarAllocation) (used : Nat) :
    sumAlloc (distribute w l s used) = sumAlloc s + min (w - used) l.length := by
  induction l generalizing s used with
  | nil => simp [distribute]
  | cons x xs ih =>
    simp only [distribute]
    split
    · simp; omega
    · rw [ih, sumAlloc_bump]
      simp only [List.length_cons]
      omega

theorem div3_sum_bounds (x y z t w : Nat) (ht : 0 < t) (hsum : x + y + z = t * w) :
    x / t + y / t + z / t ≤ w ∧ w ≤ x / t + y / t + z / t + 2 := by
  have hx : t * (x / t) + x % t = x := Nat.div_add_mod x t
  have hy : t * (y / t) + y % t = y := Nat.div_add_mod y t
  have hz : t * (z / t) + z % t = z := Nat.div_add_mod z t
  have hmx : x % t < t := Nat.mod_lt x ht
  have hmy : y % t < t := Nat.mod_lt y ht
  have hmz : z % t < t := Nat.mod_lt z ht
  have key : t * (x / t + y / t + z / t) + (x % t + y % t + z % t) = t * w := by
    rw [Nat.mul_add, Nat.mul_add]; omega
  constructor
  · have h1 : t * (x / t + y / t + z / t) ≤ t * w := by omega
    exact Nat.le_of_mul_le_mul_left h1 ht
  · have h2 : t * w < t * (x / t + y / t + z / t + 3) := by
      rw [Nat.mul_add]; omega
    have h3 := Nat.lt_of_mul_lt_mul_left h2
    omega

theorem allocBase_sum_bounds (p : CiProgress) (w : Nat) (ht : 0 < p.total)
    (hv : p.total = p.passed + p.failed + p.pending) :
    sumAlloc (allocBase p w) ≤ w ∧ w ≤ sumAlloc (allocBase p w) + 2 := by
  have hsum : p.passed * w + p.failed * w + p.pending * w = p.total * w := by
    rw [hv]; ring
  have := div3_sum_bounds (p.passed * w) (p.failed * w) (p.pending * w) p.total w ht hsum
  simpa [sumAlloc, allocBase] using this

theorem sumAlloc_afterDistribute (p : CiProgress) (w : Nat) (ht : 0 < p.total)
    (hv : p.total = p.passed + p.failed + p.pending) :
    sumAlloc (distribute w (allocFractions p w) (allocBase p w) (sumAlloc (allocBase p w))) = w := by
  obtain ⟨hle, hge⟩ := allocBase_sum_bounds p w ht hv
  rw [sumAlloc_distribute]
  simp only [allocFractions, length_sortFractions]
  omega

theorem sumAlloc_borrowFail (f : Nat) (s : BarAllocation) (h : 0 < sumAlloc s) :
    sumAlloc (borrowFail f s) = sumAlloc s := by
  simp only [sumAlloc] at *
  unfold borrowFail
  split <;> [skip; rfl]
  split_ifs <;> simp <;> omega

theorem sumAlloc_borrowPending (pd : Nat) (s : BarAllocation) (h : 0 < sumAlloc s) :
    sumAlloc (borrowPending pd s) = sumAlloc s := by
  simp only [sumAlloc] at *
  unfold borrowPending
  split <;> [skip; rfl]
  split_ifs <;> simp <;> omega

theorem sumAlloc_borrowPass (ps : Nat) (s : BarAllocation) (h : 0 < sumAlloc s) :
    sumAlloc (borrowPass ps s) = sumAlloc s := by
  simp only [sumAlloc] at *
  unfold borrowPass
  split <;> [skip; rfl]
  split_ifs <;> simp <;> omega

theorem shrinkGo_eq_self (w fuel : Nat) (s : BarAllocation) (h : sumAlloc s ≤ w) :
    shrinkGo w fuel s = s := by
  cases fuel <;> simp [shrinkGo, Nat.not_lt.mpr h]

theorem shrinkToWidth_eq_self (w : Nat) (s : BarAllocation) (h : sumAlloc s ≤ w) :
    shrinkToWidth w s = s :=
  shrinkGo_eq_self w (sumAlloc s) s h

theorem growGo_eq_self (w fuel : Nat) (p : CiProgress) (s : BarAllocation) (h : w ≤ sumAlloc s) :
    growGo w p fuel s = s := by
  cases fuel <;> simp [growGo, Nat.not_lt.mpr h]

theorem growToWidth_eq_self (w : Nat) (p : CiProgress) (s : BarAllocation) (h : w ≤ sumAlloc s) :
    growToWidth w p s = s :=
  growGo_eq_self w (w - sumAlloc s) p s h

/-! ## C9: zero-total early return -/

/-- C9: for every width, a tally with `total == 0` makes `ciBadge` return
the all-zero allocation through its early-return branch (the renderer
then shows the dim "no checks" text instead of a bar); the rounding,
borrowing and correction steps are skipped entirely. -/
theorem ciBadgeAllocate_zero_total (p : CiProgress) (w : Nat) (h : p.total = 0) :
    ciBadgeAllocate p w = ⟨0, 0, 0⟩ := by
  simp [ciBadgeAllocate, h]

theorem ciBadgeAllocate_zero_total_witness :
    ciBadgeAllocate ⟨0, 0, 0, 0, CiStatus.none⟩ 7 = ⟨0, 0, 0⟩ :=
  ciBadgeAllocate_zero_total ⟨0, 0, 0, 0, CiStatus.none⟩ 7 rfl

/-! ## C1: the allocation sums exactly to the width -/

/-- C1 counterexample: the empty tally is a valid progress value
(`total = passed + failed + pending` and derived status `none`), yet at
width `7 ≥ 1` the allocation sums to `0`, not to the width — the claim
fails for tallies with `total = 0`. -/
theorem ciBadgeAllocate_sum_cex :
    (⟨0, 0, 0, 0, CiStatus.none⟩ : CiProgress).total =
        (⟨0, 0, 0, 0, CiStatus.none⟩ : CiProgress).passed +
          (⟨0, 0, 0, 0, CiStatus.none⟩ : CiProgress).failed +
            (⟨0, 0, 0, 0, CiStatus.none⟩ : CiProgress).pending ∧
      1 ≤ 7 ∧ sumAlloc (ciBadgeAllocate ⟨0, 0, 0, 0, CiStatus.none⟩ 7) ≠ 7 := by
  decide

/-- C1 (amended): for every valid tally with `total > 0` and every width
`≥ 1`, the slot counts computed by `ciBadge` sum exactly to the width:
the floors sum to within 2 of the width, the largest-remainder loop tops
the sum up to exactly the width, each `borrowSlot` call moves one slot
from a donor to the needy category (the needy category's complement holds
the whole width, so a donor slot always exists), and the two correction
loops see a sum already equal to the width and do nothing. -/
theorem ciBadgeAllocate_sum_width (p : CiProgress) (w : Nat)
    (hv : p.total = p.passed + p.failed + p.pending) (ht : 0 < p.total) (hw : 1 ≤ w) :
    sumAlloc (ciBadgeAllocate p w) = w := by
  have htne : ¬ p.total = 0 := Nat.pos_iff_ne_zero.mp ht
  unfold ciBadgeAllocate
  rw [if_neg htne]
  have h1 := sumAlloc_afterDistribute p w ht hv
  set s1 := distribute w (allocFractions p w) (allocBase p w) (sumAlloc (allocBase p w)) with hs1
  have h2 : sumAlloc (borrowFail p.failed s1) = w := by
    rw [sumAlloc_borrowFail p.failed s1 (by omega)]; exact h1
  set s2 := borrowFail p.failed s1 with hs2
  have h3 : sumAlloc (borrowPending p.pending s2) = w := by
    rw [sumAlloc_borrowPending p.pending s2 (by omega)]; exact h2
  set s3 := borrowPending p.pending s2 with hs3
  have h4 : sumAlloc (borrowPass p.passed s3) = w := by
    rw [sumAlloc_borrowPass p.passed s3 (by omega)]; exact h3
  set s4 := borrowPass p.passed s3 with hs4
  rw [shrinkToWidth_eq_self w s4 (by omega), growToWidth_eq_self w p s4 (by omega)]
  exact h4

theorem ciBadgeAllocate_sum_width_witness :
    sumAlloc (ciBadgeAllocate ⟨3, 2, 1, 0, CiStatus.fail⟩ 7) = 7 :=
  ciBadgeAllocate_sum_width ⟨3, 2, 1, 0, CiStatus.fail⟩ 7 (by decide) (by decide) (by decide)

/-! ## C2: visibility of the failed category -/

/-- The number of categories of a tally whose raw count is nonzero. -/
def nonzeroCategories (p : CiProgress) : Nat :=
  (if 0 < p.passed then 1 else 0) + (if 0 < p.failed then 1 else 0) +
    (if 0 < p.pending then 1 else 0)

theorem borrowFail_failSlots_pos (f : Nat) (s : BarAllocation) (hf : 0 < f) :
    1 ≤ (borrowFail f s).failSlots := by
  unfold borrowFail
  split_ifs <;> simp_all <;> try omega

theorem borrowPending_failSlots_pos (pd w : Nat) (s : BarAllocation)
    (h1 : 1 ≤ s.failSlots) (hsum : sumAlloc s = w) (hcase : pd = 0 ∨ 2 ≤ w) :
    1 ≤ (borrowPending pd s).failSlots := by
  simp only [sumAlloc] at hsum
  unfold borrowPending
  split_ifs <;> simp_all <;> omega

theorem borrowPass_failSlots_pos (ps w : Nat) (s : BarAllocation)
    (h1 : 1 ≤ s.failSlots) (hsum : sumAlloc s = w) (hcase : ps = 0 ∨ 2 ≤ w) :
    1 ≤ (borrowPass ps s).failSlots := by
  simp only [sumAlloc] at hsum
  unfold borrowPass
  split_ifs <;> simp_all <;> omega

/-- C2: for every valid tally with `failed > 0` and any width at least
the number of nonzero categories, the allocation gives the failed
category at least one slot.  After `borrowSlot("fail")` the failed count
holds a slot; the later borrows for pending and pass can only steal the
failed category's last slot when the whole bar is one slot wide while two
categories are nonzero, which the width hypothesis excludes; the
correction loops never drop a category holding exactly one slot. -/
theorem ciBadgeAllocate_fail_visible (p : CiProgress) (w : Nat)
    (hv : p.total = p.passed + p.failed + p.pending) (hf : 0 < p.failed)
    (hw : nonzeroCategories p ≤ w) :
    1 ≤ (ciBadgeAllocate p w).failSlots := by
  have ht : 0 < p.total := by omega
  have hw1 : 1 ≤ w := by
    have : 1 ≤ nonzeroCategories p := by unfold nonzeroCategories; split_ifs <;> omega
    omega
  have hpd2 : 0 < p.pending → 2 ≤ w := by
    intro hpd
    have : 2 ≤ nonzeroCategories p := by unfold nonzeroCategories; split_ifs <;> omega
    omega
  have hps2 : 0 < p.passed → 2 ≤ w := by
    intro hps
    have : 2 ≤ nonzeroCategories p := by unfold nonzeroCategories; split_ifs <;> omega
    omega
  have htne : ¬ p.total = 0 := Nat.pos_iff_ne_zero.mp ht
  unfold ciBadgeAllocate
  rw [if_neg htne]
  have h1 := sumAlloc_afterDistribute p w ht hv
  set s1 := distribute w (allocFractions p w) (allocBase p w) (sumAlloc (allocBase p w)) with hs1
  have h2 : sumAlloc (borrowFail p.failed s1) = w := by
    rw [sumAlloc_borrowFail p.failed s1 (by omega)]; exact h1
  have hfs2 : 1 ≤ (borrowFail p.failed s1).failSlots := borrowFail_failSlots_pos p.failed s1 hf
  set s2 := borrowFail p.failed s1 with hs2
  have h3 : sumAlloc (borrowPending p.pending s2) = w := by
    rw [sumAlloc_borrowPending p.pending s2 (by omega)]; exact h2
  have hfs3 : 1 ≤ (borrowPending p.pending s2).failSlots := by
    refine borrowPending_failSlots_pos p.pending w s2 hfs2 h2 ?_
    rcases Nat.eq_zero_or_pos p.pending with h | h
    · exact Or.inl h
    · exact Or.inr (hpd2 h)
  set s3 := borrowPending p.pending s2 with hs3
  have h4 : sumAlloc (borrowPass p.passed s3) = w := by
    rw [sumAlloc_borrowPass p.passed s3 (by omega)]; exact h3
  have hfs4 : 1 ≤ (borrowPass p.passed s3).failSlots := by
    refine borrowPass_failSlots_pos p.passed w s3 hfs3 h3 ?_
    rcases Nat.eq_zero_or_pos p.passed with h | h
    · exact Or.inl h
    · exact Or.inr (hps2 h)
  set s4 := borrowPass p.passed s3 with hs4
  rw [shrinkToWidth_eq_self w s4 (by omega), growToWidth_eq_self w p s4 (by omega)]
  exact hfs4

theorem ciBadgeAllocate_fail_visible_witness :
    1 ≤ (ciBadgeAllocate ⟨10, 9, 1, 0, CiStatus.fail⟩ 7).failSlots :=
  ciBadgeAllocate_fail_visible ⟨10, 9, 1, 0, CiStatus.fail⟩ 7 (by decide) (by decide) (by decide)

/-! ## C3: the borrow step's donor selection -/

/-- C3 counterexample: with tally `{total:3, passed:1, failed:1,
pending:1}` and width 1, the remainder distribution produces the
allocation `(1, 0, 0)`, and `borrowSlot("fail")` is then invoked on a
state where no donor holds more than one slot.  The claim says the borrow
is skipped and that a donor holding exactly one slot with nonzero raw
count is never reduced to zero; in fact the fallback branches fire: the
pass category (raw count 1, exactly one slot) is reduced to zero slots
and the failed category still receives its slot. -/
theorem borrowSlot_skip_cex :
    distribute 1 (allocFractions ⟨3, 1, 1, 1, CiStatus.fail⟩ 1)
        (allocBase ⟨3, 1, 1, 1, CiStatus.fail⟩ 1)
        (sumAlloc (allocBase ⟨3, 1, 1, 1, CiStatus.fail⟩ 1)) = ⟨1, 0, 0⟩ ∧
      ¬ (1 < (⟨1, 0, 0⟩ : BarAllocation).pendingSlots ∨
          1 < (⟨1, 0, 0⟩ : BarAllocation).passSlots) ∧
      borrowFail 1 ⟨1, 0, 0⟩ ≠ ⟨1, 0, 0⟩ ∧
      (borrowFail 1 ⟨1, 0, 0⟩).passSlots = 0 := by
  decide

/-- C3 (amended): a borrow for a category with nonzero raw count and zero
slots always gives that category exactly one slot (it is never skipped).
It prefers a donor currently holding more than one slot — when such a
donor exists no donor is reduced to zero and the total is preserved.
When every donor holds at most one slot it falls back to a donor holding
exactly one slot, reducing that donor to zero (the total is still
preserved); only when all donors hold zero slots is nothing taken, and
the total then grows by one. -/
theorem borrowSlot_fallback (cnt : Nat) (s : BarAllocation) (hc : 0 < cnt) :
    (s.failSlots = 0 →
      (borrowFail cnt s).failSlots = 1 ∧
        ((1 < s.pendingSlots ∨ 1 < s.passSlots) →
          sumAlloc (borrowFail cnt s) = sumAlloc s ∧
            (0 < s.passSlots → 0 < (borrowFail cnt s).passSlots) ∧
            (0 < s.pendingSlots → 0 < (borrowFail cnt s).pendingSlots)) ∧
        (0 < s.passSlots + s.pendingSlots → sumAlloc (borrowFail cnt s) = sumAlloc s) ∧
        (s.passSlots + s.pendingSlots = 0 →
          borrowFail cnt s = ⟨s.passSlots, 1, s.pendingSlots⟩)) ∧
    (s.pendingSlots = 0 →
      (borrowPending cnt s).pendingSlots = 1 ∧
        ((1 < s.passSlots ∨ 1 < s.failSlots) →
          sumAlloc (borrowPending cnt s) = sumAlloc s ∧
            (0 < s.passSlots → 0 < (borrowPending cnt s).passSlots) ∧
            (0 < s.failSlots → 0 < (borrowPending cnt s).failSlots)) ∧
        (0 < s.passSlots + s.failSlots → sumAlloc (borrowPending cnt s) = sumAlloc s) ∧
        (s.passSlots + s.failSlots = 0 →
          borrowPending cnt s = ⟨s.passSlots, s.failSlots, 1⟩)) ∧
    (s.passSlots = 0 →
      (borrowPass cnt s).passSlots = 1 ∧
        ((1 < s.pendingSlots ∨ 1 < s.failSlots) →
          sumAlloc (borrowPass cnt s) = sumAlloc s ∧
            (0 < s.pendingSlots → 0 < (borrowPass cnt s).pendingSlots) ∧
            (0 < s.failSlots → 0 < (borrowPass cnt s).failSlots)) ∧
        (0 < s.pendingSlots + s.failSlots → sumAlloc (borrowPass cnt s) = sumAlloc s) ∧
        (s.pendingSlots + s.failSlots = 0 →
          borrowPass cnt s = ⟨1, s.failSlots, s.pendingSlots⟩)) := by
  refine ⟨fun h0 => ?_, fun h0 => ?_, fun h0 => ?_⟩
  · unfold borrowFail
    split_ifs <;> simp_all [sumAlloc] <;> omega
  · unfold borrowPending
    split_ifs <;> simp_all [sumAlloc] <;> omega
  · unfold borrowPass
    split_ifs <;> simp_all [sumAlloc] <;> omega

theorem borrowSlot_fallback_witness :
    (borrowFail 1 ⟨2, 0, 0⟩).failSlots = 1 :=
  ((borrowSlot_fallback 1 ⟨2, 0, 0⟩ (by decide)).1 (by decide)).1

/-! ## C4: every check lands in exactly one bucket -/

theorem classifyStep_sum (acc : Nat × Nat × Nat) (c : CheckResult) :
    (classifyStep acc c).1 + (classifyStep acc c).2.1 + (classifyStep acc c).2.2 =
      acc.1 + acc.2.1 + acc.2.2 + 1 := by
  unfold classifyStep
  split_ifs <;> simp <;> omega

theorem foldl_classifyStep_sum (l : List CheckResult) (acc : Nat × Nat × Nat) :
    (l.foldl classifyStep acc).1 + (l.foldl classifyStep acc).2.1 +
        (l.foldl classifyStep acc).2.2 = acc.1 + acc.2.1 + acc.2.2 + l.length := by
  induction l generalizing acc with
  | nil => simp
  | cons c cs ih =>
    simp only [List.foldl_cons, List.length_cons]
    rw [ih (classifyStep acc c), classifyStep_sum]
    omega

/-- C4: for every check sequence, including the empty one, the classifier
satisfies `total = passed + failed + pending` and `total` equals the
length of the sequence; each check of the loop increments exactly one of
the three buckets. -/
theorem ciProgressFromChecks_total (checks : List CheckResult) :
    (ciProgressFromChecks (Option.some checks)).total =
        (ciProgressFromChecks (Option.some checks)).passed +
          (ciProgressFromChecks (Option.some checks)).failed +
            (ciProgressFromChecks (Option.some checks)).pending ∧
      (ciProgressFromChecks (Option.some checks)).total = checks.length := by
  cases checks with
  | nil => simp [ciProgressFromChecks]
  | cons c cs =>
    simp only [ciProgressFromChecks, List.isEmpty_cons, Bool.false_eq_true, if_false]
    refine ⟨trivial, ?_⟩
    simpa using foldl_classifyStep_sum (c :: cs) (0, 0, 0)

/-! ## C5: the status field versus the derived status -/

/-- The derivation rule of the spec's data model: `fail` if `failed>0`;
else `pending` if `pending>0`; else `pass` if `total>0`; else `none`. -/
def derivedCiStatus (c : CiProgress) : CiStatus :=
  if 0 < c.failed then CiStatus.fail
  else if 0 < c.pending then CiStatus.pending
  else if 0 < c.total then CiStatus.pass
  else CiStatus.none

/-- C5 counterexample: `ciProgressFromRecord` on a record with
`ci = "unknown"` and no stored tally returns the zero tally with status
`"unknown"`, while the derivation rule yields `"none"` for a zero tally —
the status field of this produced value is not the derived one. -/
theorem ciProgress_status_derived_cex :
    (ciProgressFromRecord ⟨CiStatus.unknown, Option.none⟩).status ≠
      derivedCiStatus (ciProgressFromRecord ⟨CiStatus.unknown, Option.none⟩) := by
  decide

/-- C5 (amended): every tally built by `ciProgressFromChecks` carries the
derived status; `ciProgressFromRecord` also derives the status from its
four recognised `ci` values, but its fallback branch (an unrecognised
`ci`, modelled by `"unknown"`) returns the zero tally with status
`"unknown"` instead of the derived `"none"`, and a stored `ciProgress` is
passed through unchanged. -/
theorem ciProgress_status_derived :
    (∀ checks : Option (List CheckResult),
        (ciProgressFromChecks checks).status = derivedCiStatus (ciProgressFromChecks checks)) ∧
      (∀ pr : PrRecord, pr.ciProgress = Option.none → pr.ci ≠ CiStatus.unknown →
        (ciProgressFromRecord pr).status = derivedCiStatus (ciProgressFromRecord pr)) := by
  constructor
  · intro checks
    match checks with
    | Option.none => decide
    | Option.some [] => decide
    | Option.some (c :: cs) =>
      have hsum := foldl_classifyStep_sum (c :: cs) (0, 0, 0)
      simp only [List.length_cons] at hsum
      simp only [ciProgressFromChecks, List.isEmpty_cons, Bool.false_eq_true, if_false,
        derivedCiStatus]
      split_ifs <;> first | rfl | omega
  · intro pr h1 h2
    obtain ⟨ci, cp⟩ := pr
    simp only at h1 h2
    subst h1
    cases ci <;> first | rfl | exact absurd rfl h2

theorem ciProgress_status_derived_witness :
    (ciProgressFromRecord ⟨CiStatus.pass, Option.none⟩).status =
      derivedCiStatus (ciProgressFromRecord ⟨CiStatus.pass, Option.none⟩) :=
  ciProgress_status_derived.2 ⟨CiStatus.pass, Option.none⟩ rfl (by decide)

/-! ## C6: the per-check bucketing rules -/

/-- C6: a check is completed iff its uppercased status is `"COMPLETED"`
or its status is empty while its conclusion is non-empty; a not-completed
check increments pending; a completed check with empty conclusion
increments pending; a completed check whose conclusion is in the failure
list increments failed; one whose conclusion is in the success list
increments passed; any other completed, labelled conclusion increments
failed. -/
theorem classifyStep_buckets (acc : Nat × Nat × Nat) (c : CheckResult) :
    (isCompletedCheck c = true ↔
        (checkStatusUp c = "COMPLETED" ∨ (checkStatusUp c = "" ∧ checkConclusionUp c ≠ ""))) ∧
      (isCompletedCheck c = false → classifyStep acc c = (acc.1, acc.2.1, acc.2.2 + 1)) ∧
      (isCompletedCheck c = true → checkConclusionUp c = "" →
        classifyStep acc c = (acc.1, acc.2.1, acc.2.2 + 1)) ∧
      (isCompletedCheck c = true → checkConclusionUp c ∈ failConclusions →
        classifyStep acc c = (acc.1, acc.2.1 + 1, acc.2.2)) ∧
      (isCompletedCheck c = true → checkConclusionUp c ∈ passConclusions →
        classifyStep acc c = (acc.1 + 1, acc.2.1, acc.2.2)) ∧
      (isCompletedCheck c = true → checkConclusionUp c ≠ "" →
        checkConclusionUp c ∉ failConclusions → checkConclusionUp c ∉ passConclusions →
        classifyStep acc c = (acc.1, acc.2.1 + 1, acc.2.2)) := by
  refine ⟨?_, ?_, ?_, ?_, ?_, ?_⟩
  · simp [isCompletedCheck]
  · intro h
    simp [classifyStep, h]
  · intro h hc
    have hnf : checkConclusionUp c ∉ failConclusions := by
      rw [hc]; decide
    rw [classifyStep, if_pos h, if_neg hnf, if_pos hc]
  · intro h hm
    rw [classifyStep, if_pos h, if_pos hm]
  · intro h hm
    have hnf : checkConclusionUp c ∉ failConclusions := by
      simp only [passConclusions, List.mem_cons, List.not_mem_nil, or_false] at hm
      rcases hm with hm | hm | hm <;> rw [hm] <;> decide
    have hne : ¬ checkConclusionUp c = "" := by
      simp only [passConclusions, List.mem_cons, List.not_mem_nil, or_false] at hm
      rcases hm with hm | hm | hm <;> rw [hm] <;> decide
    rw [classifyStep, if_pos h, if_neg hnf, if_neg hne, if_pos hm]
  · intro h hne hnf hnp
    rw [classifyStep, if_pos h, if_neg hnf, if_neg hne, if_neg hnp]

theorem classifyStep_buckets_witness :
    classifyStep (0, 0, 0) ⟨Option.some "completed", Option.some "failure"⟩ = (0, 1, 0) :=
  (classifyStep_buckets (0, 0, 0) ⟨Option.some "completed", Option.some "failure"⟩).2.2.2.1
    (by decide) (by decide)

/-! ## C7: merge-status classification -/

/-- C7: a truthy merged timestamp or the uppercased state `"MERGED"`
yields `merged`, taking priority over the draft flag and the OPEN/CLOSED
states; otherwise a draft record yields `draft`, state OPEN yields
`open`, state CLOSED yields `closed`, anything else `unknown`; in
particular merged beats an open draft. -/
theorem mergeFromState_spec (pr : GhPrView) :
    ((truthyStr pr.mergedAt = true ∨ strUpper (pr.state.getD "") = "MERGED") →
        mergeFromState pr = MergeStatus.merged) ∧
      (¬ (truthyStr pr.mergedAt = true ∨ strUpper (pr.state.getD "") = "MERGED") →
        pr.isDraft.getD false = true → mergeFromState pr = MergeStatus.draft) ∧
      (¬ (truthyStr pr.mergedAt = true ∨ strUpper (pr.state.getD "") = "MERGED") →
        pr.isDraft.getD false = false → strUpper (pr.state.getD "") = "OPEN" →
        mergeFromState pr = MergeStatus.open) ∧
      (¬ (truthyStr pr.mergedAt = true ∨ strUpper (pr.state.getD "") = "MERGED") →
        pr.isDraft.getD false = false → strUpper (pr.state.getD "") = "CLOSED" →
        mergeFromState pr = MergeStatus.closed) ∧
      (¬ (truthyStr pr.mergedAt = true ∨ strUpper (pr.state.getD "") = "MERGED") →
        pr.isDraft.getD false = false → strUpper (pr.state.getD "") ≠ "OPEN" →
        strUpper (pr.state.getD "") ≠ "CLOSED" → mergeFromState pr = MergeStatus.unknown) ∧
      mergeFromState ⟨Option.some "2024-01-01", Option.some true, Option.some "OPEN"⟩ =
        MergeStatus.merged := by
  refine ⟨?_, ?_, ?_, ?_, ?_, by decide⟩
  · intro h
    simp [mergeFromState, h]
  · intro h hd
    simp [mergeFromState, h, hd]
  · intro h hd hs
    obtain ⟨h1, h2⟩ := not_or.mp h
    rw [Bool.not_eq_true] at h1
    simp [mergeFromState, h1, h2, hd, hs]
  · intro h hd hs
    obtain ⟨h1, h2⟩ := not_or.mp h
    rw [Bool.not_eq_true] at h1
    simp [mergeFromState, h1, h2, hd, hs]
  · intro h hd hs1 hs2
    obtain ⟨h1, h2⟩ := not_or.mp h
    rw [Bool.not_eq_true] at h1
    simp [mergeFromState, h1, h2, hd, hs1, hs2]

theorem mergeFromState_spec_witness :
    mergeFromState ⟨Option.none, Option.none, Option.some "closed"⟩ = MergeStatus.closed :=
  (mergeFromState_spec ⟨Option.none, Option.none, Option.some "closed"⟩).2.2.2.1
    (by decide) (by decide) (by decide)

/-! ## C8: review-status classification -/

/-- C8: a merged item is classified `approved` regardless of the recorded
decision; otherwise the uppercased decision maps `APPROVED` to
`approved`, `CHANGES_REQUESTED` to `changes`, `REVIEW_REQUIRED` to
`pending`, and anything else to `unknown`. -/
theorem reviewFromDecision_spec (decision : Option String) (merge : Option MergeStatus) :
    (merge = Option.some MergeStatus.merged →
        reviewFromDecision decision merge = ReviewStatus.approved) ∧
      (merge ≠ Option.some MergeStatus.merged →
        (strUpper (decision.getD "") = "APPROVED" →
            reviewFromDecision decision merge = ReviewStatus.approved) ∧
          (strUpper (decision.getD "") = "CHANGES_REQUESTED" →
            reviewFromDecision decision merge = ReviewStatus.changes) ∧
          (strUpper (decision.getD "") = "REVIEW_REQUIRED" →
            reviewFromDecision decision merge = ReviewStatus.pending) ∧
          (strUpper (decision.getD "") ≠ "APPROVED" →
            strUpper (decision.getD "") ≠ "CHANGES_REQUESTED" →
            strUpper (decision.getD "") ≠ "REVIEW_REQUIRED" →
            reviewFromDecision decision merge = ReviewStatus.unknown)) ∧
      reviewFromDecision (Option.some "CHANGES_REQUESTED") (Option.some MergeStatus.merged) =
        ReviewStatus.approved ∧
      reviewFromDecision (Option.some "APPROVED") (Option.some MergeStatus.open) =
        ReviewStatus.approved := by
  refine ⟨?_, ?_, by decide, by decide⟩
  · intro h
    simp [reviewFromDecision, h]
  · intro h
    refine ⟨?_, ?_, ?_, ?_⟩
    · intro hd
      simp [reviewFromDecision, h, hd]
    · intro hd
      simp [reviewFromDecision, h, hd]
    · intro hd
      simp [reviewFromDecision, h, hd]
    · intro h1 h2 h3
      simp [reviewFromDecision, h, h1, h2, h3]

theorem reviewFromDecision_spec_witness :
    reviewFromDecision (Option.some "CHANGES_REQUESTED") (Option.some MergeStatus.open) =
      ReviewStatus.changes :=
  ((reviewFromDecision_spec (Option.some "CHANGES_REQUESTED")
        (Option.some MergeStatus.open)).2.1 (by decide)).2.1 (by decide)

/-! ## C10: deterministic tie-breaking of equal remainders -/

/-- Position of a category in a list of keys (the index at which the
distribution loop reaches it). -/
def posIn (c : Cat) : List Cat → Nat
  | [] => 0
  | c' :: l => if c' = c then 0 else posIn c l + 1

/-- C10: the sorted `fractions` list is always a permutation of the three
keys, and a category precedes another exactly when its remainder is
greater, or equal with the earlier construction position — so equal
remainders are served in the fixed order pass, fail, pending, and the
distribution of leftover slots is fully deterministic.  Concretely, for
`{total:3, passed:1, failed:1, pending:1}` at width 4 all three
remainders tie and the single leftover slot goes to pass. -/
theorem sortFractions_tie_order (rp rf rpd : Nat) :
    ((sortFractions rp rf rpd).map Prod.fst).Perm [Cat.pass, Cat.fail, Cat.pending] ∧
      (posIn Cat.pass ((sortFractions rp rf rpd).map Prod.fst) <
          posIn Cat.fail ((sortFractions rp rf rpd).map Prod.fst) ↔ rf ≤ rp) ∧
      (posIn Cat.fail ((sortFractions rp rf rpd).map Prod.fst) <
          posIn Cat.pending ((sortFractions rp rf rpd).map Prod.fst) ↔ rpd ≤ rf) ∧
      (posIn Cat.pass ((sortFractions rp rf rpd).map Prod.fst) <
          posIn Cat.pending ((sortFractions rp rf rpd).map Prod.fst) ↔ rpd ≤ rp) ∧
      ciBadgeAllocate ⟨3, 1, 1, 1, CiStatus.pending⟩ 4 = ⟨2, 1, 1⟩ := by
  have hmain : ((sortFractions rp rf rpd).map Prod.fst).Perm
        [Cat.pass, Cat.fail, Cat.pending] ∧
      (posIn Cat.pass ((sortFractions rp rf rpd).map Prod.fst) <
          posIn Cat.fail ((sortFractions rp rf rpd).map Prod.fst) ↔ rf ≤ rp) ∧
      (posIn Cat.fail ((sortFractions rp rf rpd).map Prod.fst) <
          posIn Cat.pending ((sortFractions rp rf rpd).map Prod.fst) ↔ rpd ≤ rf) ∧
      (posIn Cat.pass ((sortFractions rp rf rpd).map Prod.fst) <
          posIn Cat.pending ((sortFractions rp rf rpd).map Prod.fst) ↔ rpd ≤ rp) := by
    simp only [sortFractions, insertDesc]
    split_ifs <;> simp only [insertDesc] <;> split_ifs <;>
      simp only [List.map_cons, List.map_nil] <;>
      refine ⟨by decide, ?_, ?_, ?_⟩ <;>
        (simp [posIn]; try omega)
  exact ⟨hmain.1, hmain.2.1, hmain.2.2.1, hmain.2.2.2, by decide⟩
